import Mathlib

/-!
Shallow embedding of the game engine of `gowsim` (`src/game.rs`).

Representation choices:
* A Rust `Vec<Card>` is a `List Card` in the same order; `Vec::push` appends at
  the end, `Vec::pop` removes the last element, so the "top" of a pile or pot
  stack is `List.getLast?`.
* The `ThreadRng` owned by a `Game` is modelled as a stream of fair coin flips
  (`List Bool`, drained from the head, defaulting to `true` when exhausted).
  The two places the engine consumes randomness during play are a shuffle of a
  two-element pot (one of two orders, i.e. one coin flip) and `gen_bool(0.5)`
  (one coin flip), so a boolean stream captures every possible behaviour.
* The initial `create_shuffled_deck` is modelled by passing the already
  shuffled deck to `Game.new` as a parameter; quantifying over all permutations
  of the standard deck covers every shuffle outcome.
* Rust panics (`panic!`, `unreachable!`, `Option::unwrap` on `None`) are
  modelled as `Except.error` values of the `Err` type, and the recursion of
  `resolve_war` is driven by explicit fuel, with `Err.outOfFuel` marking fuel
  exhaustion (never an actual behaviour of the source; termination is proved).
-/

inductive Suit where
  | Hearts
  | Diamonds
  | Clubs
  | Spades
deriving DecidableEq, Repr

inductive Face where
  | Number (n : Nat)
  | Jack
  | Queen
  | King
  | Ace
deriving DecidableEq, Repr

/-- `Face::measure_strength` from `game.rs`. -/
def Face.measure_strength : Face → Nat
  | .Number a => a
  | .Jack => 11
  | .Queen => 12
  | .King => 13
  | .Ace => 14

/-- `Face::war_length` from `game.rs`. -/
def Face.war_length : Face → Nat
  | .Number a => a
  | .Ace => 1
  | .Jack => 12
  | .Queen => 13
  | .King => 14

structure Card where
  suit : Suit
  face : Face
deriving DecidableEq, Repr

structure Player where
  draw_pile : List Card
  winnings_pile : List Card
deriving DecidableEq, Repr

def Player.count_cards (p : Player) : Nat :=
  p.draw_pile.length + p.winnings_pile.length

def Player.is_dead (p : Player) : Bool :=
  p.count_cards == 0

def Player.is_winner (p : Player) : Bool :=
  p.count_cards == 52

/-- The `self.draw_pile.pop()` tail of `Player::draw`: remove and return the
top (last) card of the draw pile. -/
def drawPop (q : Player) : Option (Card × Player) :=
  match q.draw_pile.getLast? with
  | none => none
  | some c => some (c, ⟨q.draw_pile.dropLast, q.winnings_pile⟩)

/-- `Player::draw`: swap the piles when the draw pile is empty and the
winnings pile is not, then pop the top (last) card of the draw pile. -/
def Player.draw (p : Player) : Option (Card × Player) :=
  drawPop
    (if p.draw_pile.length = 0 ∧ p.winnings_pile.length ≠ 0 then
      ⟨p.winnings_pile, p.draw_pile⟩
    else p)

/-- `create_standard_deck` from `game.rs`: 52 cards, suit-major order. -/
def create_standard_deck : List Card :=
  [Suit.Clubs, Suit.Diamonds, Suit.Hearts, Suit.Spades].flatMap fun s =>
    [Face.Ace, Face.Number 2, Face.Number 3, Face.Number 4, Face.Number 5,
     Face.Number 6, Face.Number 7, Face.Number 8, Face.Number 9,
     Face.Number 10, Face.Jack, Face.Queen, Face.King].map fun f => Card.mk s f

inductive Event where
  | GameOver (winning_player_id : Nat)
  | ShortBattle (winning_player_id : Nat) (winning_card : Card)
      (losing_card : Card) (pot : List Card)
  | WarStart (top_cards : Card × Card) (expected_length : Nat)
  | WarShortened (player_id_with_insufficient_cards : Nat)
      (length_of_war_after_shortening : Nat) (initial_length_of_war : Nat)
  | WarEnd (winning_player_id : Nat) (final_top_cards : Card × Card)
deriving DecidableEq, Repr

structure Stats where
  turn_number : Nat
deriving DecidableEq, Repr

structure Game where
  players : Player × Player
  stats : Stats
  rng : List Bool
deriving DecidableEq, Repr

/-- Draw one coin flip from the random stream (default `true` when drained;
universally quantifying over streams covers all random behaviours). -/
def Rng.flip : List Bool → Bool × List Bool
  | [] => (true, [])
  | b :: rest => (b, rest)

/-- The alternating deal of `Game::new`: cards at even positions go to
player 0's draw pile, odd positions to player 1's, keeping deck order. -/
def dealSplit : List Card → List Card × List Card
  | [] => ([], [])
  | [c] => ([c], [])
  | c0 :: c1 :: rest =>
    let p := dealSplit rest
    (c0 :: p.1, c1 :: p.2)

/-- `Game::new`, with the shuffled deck and the coin-flip stream of the
thread rng passed as parameters. -/
def Game.new (deck : List Card) (rng : List Bool) : Game :=
  { players := (⟨(dealSplit deck).1, []⟩, ⟨(dealSplit deck).2, []⟩),
    stats := { turn_number := 0 },
    rng := rng }

/-- Errors: the three fatal branches of the source plus fuel exhaustion of the
fuelled recursion. `emptyPotStack` is the `Option::unwrap` panic on an empty
pot stack, `warUnequalFaces` the `panic!("Cards cannot start a war")`,
`warDrawFailed` the `unreachable!` inside the war draw loop,
`strengthTieDifferentFaces` the `unreachable!` in `step`'s short-battle arm. -/
inductive Err where
  | emptyPotStack
  | warUnequalFaces
  | warDrawFailed
  | strengthTieDifferentFaces
  | outOfFuel
deriving DecidableEq, Repr

/-- The merged pot sequence of `resolve_war`: both stacks concatenated in an
order chosen by one coin flip. -/
def merged_pot (coin : Bool) (pot : List Card × List Card) : List Card :=
  if coin then pot.1 ++ pot.2 else pot.2 ++ pot.1

/-- The `for i in 1..=expected_length` draw loop of `resolve_war`.
`i` is the Rust loop counter for the current iteration and `r` the number of
iterations still to run (initially `i = 1`, `r = el`). Each iteration first
checks both players for at least one card; if so both draw onto their pot
stacks, otherwise a `WarShortened` event is emitted and the loop breaks. -/
def warLoop (el : Nat) (g : Game) (pot : List Card × List Card) (i r : Nat) :
    Except Err (Game × (List Card × List Card) × List Event) :=
  match r with
  | 0 => .ok (g, pot, [])
  | r' + 1 =>
    if g.players.1.count_cards ≠ 0 ∧ g.players.2.count_cards ≠ 0 then
      match g.players.1.draw, g.players.2.draw with
      | some (a, p0), some (b, p1) =>
        warLoop el { g with players := (p0, p1) }
          (pot.1 ++ [a], pot.2 ++ [b]) (i + 1) r'
      | _, _ => .error .warDrawFailed
    else
      .ok (g, pot,
        [Event.WarShortened
          (if g.players.1.count_cards = 0 then 0 else 1) (i - 1) el])

/-- `winnings_pile.extend(...)` on the winning player: append the awarded
cards, in order, to the end of that player's winnings pile. -/
def awardPot (g : Game) (winner : Nat) (cards : List Card) : Game :=
  if winner = 0 then
    { g with players := ({ g.players.1 with winnings_pile :=
        g.players.1.winnings_pile ++ cards }, g.players.2) }
  else
    { g with players := (g.players.1, { g.players.2 with winnings_pile :=
        g.players.2.winnings_pile ++ cards }) }

/-- `resolve_war` from `game.rs`, with explicit fuel for the recursion.
Returns the updated game and the events this invocation appended.  The
`gen_bool(0.5)` coin is flipped before the final comparison (as in the
source, where `pot_cards` is built eagerly), so the stream advances on
every invocation, including recursive ones. -/
def resolve_war (fuel : Nat) (g : Game) (pot : List Card × List Card) :
    Except Err (Game × List Event) :=
  match fuel with
  | 0 => .error .outOfFuel
  | fuel' + 1 =>
    match pot.1.getLast?, pot.2.getLast? with
    | some t0, some t1 =>
      if t0.face ≠ t1.face then .error .warUnequalFaces
      else
        match warLoop t0.face.war_length g pot 1 t0.face.war_length with
        | .error e => .error e
        | .ok (g1, pot1, loopEvs) =>
          match pot1.1.getLast?, pot1.2.getLast? with
          | some e0, some e1 =>
            let g2 : Game := { g1 with rng := (Rng.flip g1.rng).2 }
            let pot_cards := merged_pot (Rng.flip g1.rng).1 pot1
            let pre := Event.WarStart (t0, t1) t0.face.war_length :: loopEvs
            match compare e0.face.measure_strength e1.face.measure_strength with
            | .lt =>
              .ok (awardPot g2 1 pot_cards, pre ++ [Event.WarEnd 1 (e0, e1)])
            | .gt =>
              .ok (awardPot g2 0 pot_cards, pre ++ [Event.WarEnd 0 (e0, e1)])
            | .eq =>
              if ¬ g2.players.1.is_dead ∧ ¬ g2.players.2.is_dead then
                match resolve_war fuel' g2 pot1 with
                | .error e => .error e
                | .ok (g3, evs) => .ok (g3, pre ++ evs)
              else if g2.players.1.is_dead then
                .ok (awardPot g2 1 pot_cards,
                     pre ++ [Event.WarEnd 1 (e0, e1)])
              else
                .ok (awardPot g2 0 pot_cards,
                     pre ++ [Event.WarEnd 0 (e0, e1)])
          | _, _ => .error .emptyPotStack
    | _, _ => .error .emptyPotStack

/-- The death checks at the end of `Game::step`: one `GameOver` event is
appended per dead player, the other player named as winner. -/
def postCheck (g : Game) (events : List Event) : Game × Option (List Event) :=
  let events :=
    if g.players.1.is_dead then events ++ [Event.GameOver 1] else events
  let events :=
    if g.players.2.is_dead then events ++ [Event.GameOver 0] else events
  (g, some events)

/-- `Game::step` from `game.rs`. `none` in the result's second component is
Rust's `None` return ("no events", game already over). -/
def Game.step (fuel : Nat) (g : Game) :
    Except Err (Game × Option (List Event)) :=
  if g.players.1.is_dead ∨ g.players.2.is_dead then
    .ok (g, none)
  else
    let g := { g with stats := { turn_number := g.stats.turn_number + 1 } }
    let d0 := g.players.1.draw
    let d1 := g.players.2.draw
    match d0, d1 with
    | some (a, p0), some (b, p1) =>
      let g := { g with players := (p0, p1) }
      if a.face ≠ b.face then
        let pot := if (Rng.flip g.rng).1 then [a, b] else [b, a]
        let g := { g with rng := (Rng.flip g.rng).2 }
        match compare a.face.measure_strength b.face.measure_strength with
        | .lt =>
          .ok (postCheck (awardPot g 1 pot) [Event.ShortBattle 1 b a pot])
        | .gt =>
          .ok (postCheck (awardPot g 0 pot) [Event.ShortBattle 0 a b pot])
        | .eq => .error .strengthTieDifferentFaces
      else
        match resolve_war fuel g ([a], [b]) with
        | .error e => .error e
        | .ok (g', warEvs) => .ok (postCheck g' warEvs)
    | _, _ =>
      -- `(_, None) | (None, _)` arm: both draws were still executed when the
      -- tuple was built, so any successful one keeps its effect.
      let p0 := match d0 with | some (_, p) => p | none => g.players.1
      let p1 := match d1 with | some (_, p) => p | none => g.players.2
      .ok (postCheck { g with players := (p0, p1) } [])

/-- The driver loop of `main.rs`: call `step` until it returns `None`.
The `Bool` records whether the "no events" return was reached within the
step budget. -/
def runGame (steps fuel : Nat) (g : Game) :
    Except Err (Game × List Event × Bool) :=
  match steps with
  | 0 => .ok (g, [], false)
  | n + 1 =>
    match Game.step fuel g with
    | .error e => .error e
    | .ok (g', none) => .ok (g', [], true)
    | .ok (g', some evs) =>
      match runGame n fuel g' with
      | .error e => .error e
      | .ok (g'', evs', fin) => .ok (g'', evs ++ evs', fin)

def isGameOver : Event → Bool
  | .GameOver _ => true
  | _ => false

def totalCards (g : Game) : Nat :=
  g.players.1.count_cards + g.players.2.count_cards

/-- The faces that actually occur in a standard deck. -/
def Face.isStandard : Face → Bool
  | .Number n => decide (2 ≤ n ∧ n ≤ 10)
  | _ => true

def validPile (l : List Card) : Prop :=
  ∀ c ∈ l, c.face.isStandard = true

instance (l : List Card) : Decidable (validPile l) :=
  List.decidableBAll _ l

def validPlayer (p : Player) : Prop :=
  validPile p.draw_pile ∧ validPile p.winnings_pile

instance (p : Player) : Decidable (validPlayer p) := by
  unfold validPlayer; infer_instance

def validGame (g : Game) : Prop :=
  validPlayer g.players.1 ∧ validPlayer g.players.2

instance (g : Game) : Decidable (validGame g) := by
  unfold validGame; infer_instance

/-- Game states reachable from `Game::new` (over any shuffle of the standard
deck and any random stream) by successful `step` calls. -/
inductive Reachable : Game → Prop where
  | new (deck : List Card) (rng : List Bool)
      (hd : deck.Perm create_standard_deck) : Reachable (Game.new deck rng)
  | step (g g' : Game) (fuel : Nat) (evs : Option (List Event))
      (h : Reachable g) (hs : Game.step fuel g = .ok (g', evs)) : Reachable g'

/-! ### Basic lemmas about `Player.draw` -/

theorem drawPop_eq_none_iff (q : Player) :
    drawPop q = none ↔ q.draw_pile = [] := by
  unfold drawPop
  cases hq : q.draw_pile.getLast? with
  | none => simp [List.getLast?_eq_none_iff.mp hq]
  | some c =>
    simp only [reduceCtorEq, false_iff]
    intro h
    rw [h] at hq
    simp at hq

theorem drawPop_some_spec (q : Player) (c : Card) (q' : Player)
    (h : drawPop q = some (c, q')) :
    q.draw_pile = q'.draw_pile ++ [c] ∧ q'.winnings_pile = q.winnings_pile := by
  unfold drawPop at h
  cases hq : q.draw_pile.getLast? with
  | none => rw [hq] at h; simp at h
  | some d =>
    rw [hq] at h
    simp only [Option.some.injEq, Prod.mk.injEq] at h
    obtain ⟨hcd, hq'⟩ := h
    subst hcd hq'
    have hne : q.draw_pile ≠ [] := by
      intro h0; rw [h0] at hq; simp at hq
    have hg : q.draw_pile.getLast hne = d := by
      have h2 := (List.getLast?_eq_getLast q.draw_pile hne).symm.trans hq
      simpa using h2
    have h3 := List.dropLast_append_getLast hne
    rw [hg] at h3
    exact ⟨by simpa using h3.symm, rfl⟩

theorem draw_eq_none_iff (p : Player) :
    p.draw = none ↔ p.draw_pile = [] ∧ p.winnings_pile = [] := by
  unfold Player.draw
  by_cases h : p.draw_pile.length = 0 ∧ p.winnings_pile.length ≠ 0
  · rw [if_pos h, drawPop_eq_none_iff]
    exact iff_of_false
      (fun hw => h.2 (by simp [show p.winnings_pile = [] from hw]))
      (fun hr => h.2 (by simp [hr.2]))
  · rw [if_neg h, drawPop_eq_none_iff]
    push_neg at h
    constructor
    · intro h1
      exact ⟨h1, List.length_eq_zero.mp (h (by simp [h1]))⟩
    · rintro ⟨h1, -⟩; exact h1

/-- Structure of a successful `Player::draw`: either the draw pile was
non-empty and lost its last card, or the piles were swapped first. -/
theorem draw_some_spec (p : Player) (c : Card) (p' : Player)
    (h : p.draw = some (c, p')) :
    (p.draw_pile = p'.draw_pile ++ [c] ∧ p'.winnings_pile = p.winnings_pile) ∨
    (p.draw_pile = [] ∧ p.winnings_pile = p'.draw_pile ++ [c] ∧
      p'.winnings_pile = []) := by
  unfold Player.draw at h
  by_cases hc : p.draw_pile.length = 0 ∧ p.winnings_pile.length ≠ 0
  · rw [if_pos hc] at h
    have hs := drawPop_some_spec _ _ _ h
    exact Or.inr ⟨List.length_eq_zero.mp hc.1, by simpa using hs.1,
      (show p'.winnings_pile = p.draw_pile from hs.2).trans
        (List.length_eq_zero.mp hc.1)⟩
  · rw [if_neg hc] at h
    exact Or.inl (drawPop_some_spec _ _ _ h)

theorem draw_some_count (p : Player) (c : Card) (p' : Player)
    (h : p.draw = some (c, p')) : p'.count_cards + 1 = p.count_cards := by
  rcases draw_some_spec p c p' h with ⟨h1, h2⟩ | ⟨h1, h2, h3⟩
  · simp only [Player.count_cards, h1, h2, List.length_append,
      List.length_cons, List.length_nil]
    omega
  · simp only [Player.count_cards, h1, h2, h3, List.length_append,
      List.length_cons, List.length_nil]
    omega

theorem draw_isSome_of_count (p : Player) (hc : p.count_cards ≠ 0) :
    ∃ c p', p.draw = some (c, p') := by
  cases hd : p.draw with
  | none =>
    rcases (draw_eq_none_iff p).mp hd with ⟨h1, h2⟩
    exact absurd (by simp [Player.count_cards, h1, h2]) hc
  | some v =>
    obtain ⟨c, p'⟩ := v
    exact ⟨c, p', rfl⟩

theorem draw_some_mem (p : Player) (c : Card) (p' : Player)
    (h : p.draw = some (c, p')) (x : Card)
    (hx : x ∈ c :: (p'.draw_pile ++ p'.winnings_pile)) :
    x ∈ p.draw_pile ++ p.winnings_pile := by
  rcases draw_some_spec p c p' h with ⟨h1, h2⟩ | ⟨h1, h2, h3⟩
  · simp [h1, h2] at hx ⊢
    tauto
  · simp [h1, h2, h3] at hx ⊢
    tauto

theorem draw_valid (p : Player) (c : Card) (p' : Player)
    (h : p.draw = some (c, p')) (hv : validPlayer p) :
    validPlayer p' ∧ c.face.isStandard = true := by
  rcases hv with ⟨hd, hw⟩
  have hmem : ∀ x ∈ c :: (p'.draw_pile ++ p'.winnings_pile),
      x.face.isStandard = true := by
    intro x hx
    rcases List.mem_append.mp (draw_some_mem p c p' h x hx) with h' | h'
    · exact hd x h'
    · exact hw x h'
  refine ⟨⟨fun x hx => hmem x ?_, fun x hx => hmem x ?_⟩, hmem c (by simp)⟩ <;>
    simp [hx]

/-! ### Lemmas about the war draw loop -/

theorem warLoop_ok (el : Nat) : ∀ (r i : Nat) (g : Game)
    (pot : List Card × List Card),
    ∃ g' pot' evs, warLoop el g pot i r = .ok (g', pot', evs) := by
  intro r
  induction r with
  | zero => intro i g pot; exact ⟨g, pot, [], rfl⟩
  | succ r' ih =>
    intro i g pot
    simp only [warLoop]
    by_cases h : g.players.1.count_cards ≠ 0 ∧ g.players.2.count_cards ≠ 0
    · rw [if_pos h]
      obtain ⟨a, p0, h0⟩ := draw_isSome_of_count _ h.1
      obtain ⟨b, p1, h1⟩ := draw_isSome_of_count _ h.2
      rw [h0, h1]
      exact ih (i + 1) _ _
    · rw [if_neg h]
      exact ⟨_, _, _, rfl⟩

/-- Accounting for the war draw loop: some number `d` of cards was drawn by
each player onto their pot stack; either the loop ran to completion with no
event, or it was cut short by a `WarShortened` event recording `d` plus the
previously completed iterations. -/
theorem warLoop_spec (el : Nat) : ∀ (r i : Nat) (g : Game)
    (pot : List Card × List Card) (g' : Game)
    (pot' : List Card × List Card) (evs : List Event), 1 ≤ i →
    warLoop el g pot i r = .ok (g', pot', evs) →
    ∃ d, pot'.1.length = pot.1.length + d ∧ pot'.2.length = pot.2.length + d ∧
      g'.players.1.count_cards + d = g.players.1.count_cards ∧
      g'.players.2.count_cards + d = g.players.2.count_cards ∧
      g'.rng = g.rng ∧ g'.stats = g.stats ∧
      ((evs = [] ∧ d = r) ∨
       (d < r ∧
        (g'.players.1.count_cards = 0 ∨ g'.players.2.count_cards = 0) ∧
        evs = [Event.WarShortened
          (if g'.players.1.count_cards = 0 then 0 else 1) (i - 1 + d) el])) := by
  intro r
  induction r with
  | zero =>
    intro i g pot g' pot' evs hi h
    simp only [warLoop, Except.ok.injEq, Prod.mk.injEq] at h
    obtain ⟨hg, hpot, hevs⟩ := h
    subst hg hpot hevs
    exact ⟨0, by simp⟩
  | succ r' ih =>
    intro i g pot g' pot' evs hi h
    simp only [warLoop] at h
    by_cases hc : g.players.1.count_cards ≠ 0 ∧ g.players.2.count_cards ≠ 0
    · rw [if_pos hc] at h
      obtain ⟨a, p0, h0⟩ := draw_isSome_of_count _ hc.1
      obtain ⟨b, p1, h1⟩ := draw_isSome_of_count _ hc.2
      rw [h0, h1] at h
      obtain ⟨d, hl1, hl2, hn1, hn2, hrng, hst, hca⟩ :=
        ih (i + 1) _ _ _ _ _ (by omega) h
      refine ⟨d + 1, ?_, ?_, ?_, ?_, hrng, hst, ?_⟩
      · simp at hl1; omega
      · simp at hl2; omega
      · have := draw_some_count _ _ _ h0; simp at hn1; omega
      · have := draw_some_count _ _ _ h1; simp at hn2; omega
      · rcases hca with ⟨he, hd⟩ | ⟨hd, hdead, he⟩
        · exact Or.inl ⟨he, by omega⟩
        · refine Or.inr ⟨by omega, hdead, ?_⟩
          rw [he, show i + 1 - 1 + d = i - 1 + (d + 1) by omega]
    · rw [if_neg hc] at h
      simp only [Except.ok.injEq, Prod.mk.injEq] at h
      obtain ⟨hg, hpot, hevs⟩ := h
      subst hg hpot
      refine ⟨0, by simp, by simp, by simp, by simp, rfl, rfl, Or.inr ?_⟩
      push_neg at hc
      refine ⟨by omega, ?_, ?_⟩
      · by_cases h1 : g.players.1.count_cards = 0
        · exact Or.inl h1
        · exact Or.inr (hc h1)
      · rw [← hevs]
        simp

theorem validPile_append (l1 l2 : List Card) (h1 : validPile l1)
    (h2 : validPile l2) : validPile (l1 ++ l2) := by
  intro c hc
  rcases List.mem_append.mp hc with h | h
  · exact h1 c h
  · exact h2 c h

theorem warLoop_valid (el : Nat) : ∀ (r i : Nat) (g : Game)
    (pot : List Card × List Card) (g' : Game)
    (pot' : List Card × List Card) (evs : List Event),
    warLoop el g pot i r = .ok (g', pot', evs) →
    validGame g → validPile pot.1 → validPile pot.2 →
    validGame g' ∧ validPile pot'.1 ∧ validPile pot'.2 := by
  intro r
  induction r with
  | zero =>
    intro i g pot g' pot' evs h hg hp1 hp2
    simp only [warLoop, Except.ok.injEq, Prod.mk.injEq] at h
    obtain ⟨h1, h2, -⟩ := h
    subst h1 h2
    exact ⟨hg, hp1, hp2⟩
  | succ r' ih =>
    intro i g pot g' pot' evs h hg hp1 hp2
    simp only [warLoop] at h
    by_cases hc : g.players.1.count_cards ≠ 0 ∧ g.players.2.count_cards ≠ 0
    · rw [if_pos hc] at h
      obtain ⟨a, p0, h0⟩ := draw_isSome_of_count _ hc.1
      obtain ⟨b, p1, h1⟩ := draw_isSome_of_count _ hc.2
      rw [h0, h1] at h
      obtain ⟨hv0, ha⟩ := draw_valid _ _ _ h0 hg.1
      obtain ⟨hv1, hb⟩ := draw_valid _ _ _ h1 hg.2
      refine ih (i + 1) _ _ _ _ _ h ⟨hv0, hv1⟩ ?_ ?_
      · exact validPile_append _ _ hp1 (by intro c hc_; simp at hc_; simp [hc_, ha])
      · exact validPile_append _ _ hp2 (by intro c hc_; simp at hc_; simp [hc_, hb])
    · rw [if_neg hc] at h
      simp only [Except.ok.injEq, Prod.mk.injEq] at h
      obtain ⟨h1, h2, -⟩ := h
      subst h1 h2
      exact ⟨hg, hp1, hp2⟩

/-! ### Lemmas about `awardPot` and `resolve_war` -/

theorem awardPot_total (g : Game) (w : Nat) (cards : List Card) :
    totalCards (awardPot g w cards) = totalCards g + cards.length := by
  unfold awardPot totalCards Player.count_cards
  split <;> simp <;> omega

theorem awardPot_stats (g : Game) (w : Nat) (cards : List Card) :
    (awardPot g w cards).stats = g.stats := by
  unfold awardPot; split <;> rfl

theorem awardPot_rng (g : Game) (w : Nat) (cards : List Card) :
    (awardPot g w cards).rng = g.rng := by
  unfold awardPot; split <;> rfl

theorem awardPot_valid (g : Game) (w : Nat) (cards : List Card)
    (hg : validGame g) (hc : validPile cards) :
    validGame (awardPot g w cards) := by
  unfold awardPot
  split
  · exact ⟨⟨hg.1.1, validPile_append _ _ hg.1.2 hc⟩, hg.2⟩
  · exact ⟨hg.1, hg.2.1, validPile_append _ _ hg.2.2 hc⟩

theorem merged_pot_length (coin : Bool) (pot : List Card × List Card) :
    (merged_pot coin pot).length = pot.1.length + pot.2.length := by
  unfold merged_pot; split <;> simp <;> omega

theorem merged_pot_valid (coin : Bool) (pot : List Card × List Card)
    (h1 : validPile pot.1) (h2 : validPile pot.2) :
    validPile (merged_pot coin pot) := by
  unfold merged_pot
  split
  · exact validPile_append _ _ h1 h2
  · exact validPile_append _ _ h2 h1


/-- Unfolding lemma for `resolve_war` along its main path: both pot tops
exist, tie on entry, and the draw loop has been run. -/
theorem resolve_war_eq (fuel : Nat) (g : Game) (pot : List Card × List Card)
    (t0 t1 : Card) (ht0 : pot.1.getLast? = some t0)
    (ht1 : pot.2.getLast? = some t1) (hface : t0.face = t1.face)
    (g1 : Game) (pot1 : List Card × List Card) (loopEvs : List Event)
    (hloop : warLoop t0.face.war_length g pot 1 t0.face.war_length =
      .ok (g1, pot1, loopEvs))
    (e0 e1 : Card) (he0 : pot1.1.getLast? = some e0)
    (he1 : pot1.2.getLast? = some e1) :
    resolve_war (fuel + 1) g pot =
      match compare e0.face.measure_strength e1.face.measure_strength with
      | .lt => .ok (awardPot { g1 with rng := (Rng.flip g1.rng).2 } 1
            (merged_pot (Rng.flip g1.rng).1 pot1),
          Event.WarStart (t0, t1) t0.face.war_length :: loopEvs ++
            [Event.WarEnd 1 (e0, e1)])
      | .gt => .ok (awardPot { g1 with rng := (Rng.flip g1.rng).2 } 0
            (merged_pot (Rng.flip g1.rng).1 pot1),
          Event.WarStart (t0, t1) t0.face.war_length :: loopEvs ++
            [Event.WarEnd 0 (e0, e1)])
      | .eq =>
        if ¬ g1.players.1.is_dead = true ∧ ¬ g1.players.2.is_dead = true then
          match resolve_war fuel { g1 with rng := (Rng.flip g1.rng).2 }
              pot1 with
          | .error e => .error e
          | .ok (g3, evs) =>
            .ok (g3, Event.WarStart (t0, t1) t0.face.war_length ::
              loopEvs ++ evs)
        else if g1.players.1.is_dead then
          .ok (awardPot { g1 with rng := (Rng.flip g1.rng).2 } 1
              (merged_pot (Rng.flip g1.rng).1 pot1),
            Event.WarStart (t0, t1) t0.face.war_length :: loopEvs ++
              [Event.WarEnd 1 (e0, e1)])
        else
          .ok (awardPot { g1 with rng := (Rng.flip g1.rng).2 } 0
              (merged_pot (Rng.flip g1.rng).1 pot1),
            Event.WarStart (t0, t1) t0.face.war_length :: loopEvs ++
              [Event.WarEnd 0 (e0, e1)]) := by
  conv_lhs => rw [resolve_war]
  simp only [ht0, ht1]
  rw [if_neg (by simp [hface])]
  simp only [hloop, he0, he1]

theorem totalCards_rng (g : Game) (r : List Bool) :
    totalCards { g with rng := r } = totalCards g := rfl

/-- Combined accounting for a successful `resolve_war`: the whole pot ends in
the players' piles, the events it emits never include `GameOver`, the turn
counter is untouched, and standard-deck validity is preserved. -/
theorem resolve_war_spec : ∀ (fuel : Nat) (g : Game)
    (pot : List Card × List Card) (g' : Game) (evs : List Event),
    resolve_war fuel g pot = .ok (g', evs) →
    totalCards g' = totalCards g + pot.1.length + pot.2.length ∧
    (∀ e ∈ evs, isGameOver e = false) ∧
    g'.stats = g.stats ∧
    (validGame g → validPile pot.1 → validPile pot.2 → validGame g') := by
  intro fuel
  induction fuel with
  | zero => intro g pot g' evs h; simp [resolve_war] at h
  | succ fuel' ih =>
    intro g pot g' evs h
    cases ht0 : pot.1.getLast? with
    | none => rw [resolve_war, ht0] at h; simp at h
    | some t0 =>
    cases ht1 : pot.2.getLast? with
    | none => rw [resolve_war, ht0, ht1] at h; simp at h
    | some t1 =>
    by_cases hface : t0.face = t1.face
    case neg =>
      rw [resolve_war, ht0, ht1] at h
      simp [hface] at h
    obtain ⟨g1, pot1, loopEvs, hloop⟩ :=
      warLoop_ok t0.face.war_length t0.face.war_length 1 g pot
    obtain ⟨d, hl1, hl2, hn1, hn2, hrng, hst, hca⟩ :=
      warLoop_spec _ _ _ _ _ _ _ _ le_rfl hloop
    have hpotne1 : pot.1 ≠ [] := fun hh => by rw [hh] at ht0; simp at ht0
    have hpotne2 : pot.2 ≠ [] := fun hh => by rw [hh] at ht1; simp at ht1
    cases he0 : pot1.1.getLast? with
    | none =>
      exfalso
      rw [List.getLast?_eq_none_iff.mp he0] at hl1
      have := List.length_pos.mpr hpotne1
      simp at hl1
      omega
    | some e0 =>
    cases he1 : pot1.2.getLast? with
    | none =>
      exfalso
      rw [List.getLast?_eq_none_iff.mp he1] at hl2
      have := List.length_pos.mpr hpotne2
      simp at hl2
      omega
    | some e1 =>
    rw [resolve_war_eq fuel' g pot t0 t1 ht0 ht1 hface g1 pot1 loopEvs hloop
      e0 e1 he0 he1] at h
    have hloopGO : ∀ e ∈ loopEvs, isGameOver e = false := by
      rcases hca with ⟨he, -⟩ | ⟨-, -, he⟩ <;> rw [he] <;>
        intro e hme <;> simp at hme <;> simp [hme, isGameOver]
    have hloopv := warLoop_valid _ _ _ _ _ _ _ _ hloop
    have awardCase : ∀ (w : Nat) (we : Event), isGameOver we = false →
        g' = awardPot { g1 with rng := (Rng.flip g1.rng).2 } w
          (merged_pot (Rng.flip g1.rng).1 pot1) →
        evs = Event.WarStart (t0, t1) t0.face.war_length :: loopEvs ++ [we] →
        totalCards g' = totalCards g + pot.1.length + pot.2.length ∧
        (∀ e ∈ evs, isGameOver e = false) ∧
        g'.stats = g.stats ∧
        (validGame g → validPile pot.1 → validPile pot.2 → validGame g') := by
      intro w we hwe hg' hevs
      subst hg' hevs
      refine ⟨?_, ?_, ?_, ?_⟩
      · rw [awardPot_total, merged_pot_length, totalCards_rng]
        simp only [totalCards] at *
        omega
      · intro e hme
        simp only [List.cons_append, List.mem_cons, List.mem_append,
          List.mem_singleton, List.not_mem_nil, or_false] at hme
        rcases hme with hme | hme | hme
        · simp [hme, isGameOver]
        · exact hloopGO e hme
        · rw [hme]; exact hwe
      · rw [awardPot_stats]
        simpa using hst
      · intro hv hp1 hp2
        obtain ⟨hgv, hpv1, hpv2⟩ := hloopv hv hp1 hp2
        exact awardPot_valid _ _ _ (by exact hgv)
          (merged_pot_valid _ _ hpv1 hpv2)
    cases hcmp : compare e0.face.measure_strength e1.face.measure_strength with
    | lt =>
      rw [hcmp] at h
      simp only [Except.ok.injEq, Prod.mk.injEq] at h
      exact awardCase 1 (Event.WarEnd 1 (e0, e1)) (by simp [isGameOver])
        h.1.symm (by rw [← h.2])
    | gt =>
      rw [hcmp] at h
      simp only [Except.ok.injEq, Prod.mk.injEq] at h
      exact awardCase 0 (Event.WarEnd 0 (e0, e1)) (by simp [isGameOver])
        h.1.symm (by rw [← h.2])
    | eq =>
      simp only [hcmp] at h
      split at h
      · -- both players alive: recursive war
        cases hrec : resolve_war fuel' { g1 with rng := (Rng.flip g1.rng).2 }
            pot1 with
        | error e => rw [hrec] at h; simp at h
        | ok res =>
          obtain ⟨g3, evs3⟩ := res
          simp only [hrec, Except.ok.injEq, Prod.mk.injEq] at h
          obtain ⟨hg', hevs⟩ := h
          subst hg'
          obtain ⟨iht, ihgo, ihst, ihv⟩ := ih _ _ _ _ hrec
          refine ⟨?_, ?_, ?_, ?_⟩
          · rw [iht, totalCards_rng]
            simp only [totalCards] at *
            omega
          · intro e hme
            rw [← hevs] at hme
            simp only [List.cons_append, List.mem_cons, List.mem_append] at hme
            rcases hme with hme | hme | hme
            · simp [hme, isGameOver]
            · exact hloopGO e hme
            · exact ihgo e hme
          · rw [ihst]
            simpa using hst
          · intro hv hp1 hp2
            obtain ⟨hgv, hpv1, hpv2⟩ := hloopv hv hp1 hp2
            exact ihv (by exact hgv) hpv1 hpv2
      · -- at least one player dead at the tie
        split at h <;>
        · simp only [Except.ok.injEq, Prod.mk.injEq] at h
          first
          | exact awardCase 1 (Event.WarEnd 1 (e0, e1))
              (by simp [isGameOver]) h.1.symm (by rw [← h.2])
          | exact awardCase 0 (Event.WarEnd 0 (e0, e1))
              (by simp [isGameOver]) h.1.symm (by rw [← h.2])

/-! ### Standard-deck faces: positive war length and injective strength -/

theorem mem_of_getLast?_eq (l : List Card) (a : Card)
    (h : l.getLast? = some a) : a ∈ l := by
  have ha : a ∈ l.getLast? := by simp [h, Option.mem_def]
  obtain ⟨hne, hx⟩ := List.mem_getLast?_eq_getLast ha
  rw [hx]
  exact List.getLast_mem hne

theorem war_length_pos (f : Face) (hf : f.isStandard = true) :
    1 ≤ f.war_length := by
  cases f <;> simp [Face.war_length, Face.isStandard] at * <;> omega

theorem measure_strength_inj (f g : Face) (hf : f.isStandard = true)
    (hg : g.isStandard = true)
    (h : f.measure_strength = g.measure_strength) : f = g := by
  cases f <;> cases g <;>
    simp [Face.measure_strength, Face.isStandard] at * <;> omega

theorem is_dead_true_iff (p : Player) :
    p.is_dead = true ↔ p.count_cards = 0 := by
  simp [Player.is_dead]

theorem is_dead_false_iff (p : Player) :
    p.is_dead = false ↔ p.count_cards ≠ 0 := by
  simp [Player.is_dead]

/-- Fuelled termination of `resolve_war`: on a valid game with non-empty,
face-tied pot stacks the call either succeeds, or it ran out of fuel and the
fuel was at most the players' total card count.  (Each recursion level
consumes at least one card per player, so `totalCards g + 1` fuel always
suffices, and no panic branch is ever taken.) -/
theorem resolve_war_fuel_spec : ∀ (fuel : Nat) (g : Game)
    (pot : List Card × List Card), validGame g →
    validPile pot.1 → validPile pot.2 → pot.1 ≠ [] → pot.2 ≠ [] →
    (∀ t0 t1, pot.1.getLast? = some t0 → pot.2.getLast? = some t1 →
      t0.face = t1.face) →
    (∃ r, resolve_war fuel g pot = .ok r) ∨
      (resolve_war fuel g pot = .error .outOfFuel ∧ fuel ≤ totalCards g) := by
  intro fuel
  induction fuel with
  | zero =>
    intro g pot _ _ _ _ _ _
    exact Or.inr ⟨rfl, Nat.zero_le _⟩
  | succ fuel' ih =>
    intro g pot hv hp1 hp2 hne1 hne2 htie
    cases ht0 : pot.1.getLast? with
    | none => exact absurd (List.getLast?_eq_none_iff.mp ht0) hne1
    | some t0 =>
    cases ht1 : pot.2.getLast? with
    | none => exact absurd (List.getLast?_eq_none_iff.mp ht1) hne2
    | some t1 =>
    have hface := htie t0 t1 ht0 ht1
    obtain ⟨g1, pot1, loopEvs, hloop⟩ :=
      warLoop_ok t0.face.war_length t0.face.war_length 1 g pot
    obtain ⟨d, hl1, hl2, hn1, hn2, hrng, hst, hca⟩ :=
      warLoop_spec _ _ _ _ _ _ _ _ le_rfl hloop
    obtain ⟨hg1v, hp1v, hp2v⟩ :=
      warLoop_valid _ _ _ _ _ _ _ _ hloop hv hp1 hp2
    have hlen1 := List.length_pos.mpr hne1
    have hlen2 := List.length_pos.mpr hne2
    have hne1' : pot1.1 ≠ [] := by
      intro hh; rw [hh] at hl1; simp at hl1; omega
    have hne2' : pot1.2 ≠ [] := by
      intro hh; rw [hh] at hl2; simp at hl2; omega
    cases he0 : pot1.1.getLast? with
    | none => exact absurd (List.getLast?_eq_none_iff.mp he0) hne1'
    | some e0 =>
    cases he1 : pot1.2.getLast? with
    | none => exact absurd (List.getLast?_eq_none_iff.mp he1) hne2'
    | some e1 =>
    rw [resolve_war_eq fuel' g pot t0 t1 ht0 ht1 hface g1 pot1 loopEvs hloop
      e0 e1 he0 he1]
    cases hcmp : compare e0.face.measure_strength e1.face.measure_strength with
    | lt => exact Or.inl ⟨_, rfl⟩
    | gt => exact Or.inl ⟨_, rfl⟩
    | eq =>
      have he0s : e0.face.isStandard = true :=
        hp1v e0 (mem_of_getLast?_eq _ _ he0)
      have he1s : e1.face.isStandard = true :=
        hp2v e1 (mem_of_getLast?_eq _ _ he1)
      have hfeq : e0.face = e1.face :=
        measure_strength_inj _ _ he0s he1s (Nat.compare_eq_eq.mp hcmp)
      by_cases halive :
          ¬ g1.players.1.is_dead = true ∧ ¬ g1.players.2.is_dead = true
      · rw [if_pos halive]
        have ht0s : t0.face.isStandard = true :=
          hp1 t0 (mem_of_getLast?_eq _ _ ht0)
        have hel := war_length_pos _ ht0s
        have hd1 : 1 ≤ d := by
          rcases hca with ⟨-, hd⟩ | ⟨-, hdead, -⟩
          · omega
          · exfalso
            rcases hdead with h0 | h0
            · exact (is_dead_false_iff _).mp
                (Bool.not_eq_true _ ▸ Bool.of_not_eq_true halive.1) h0
            · exact (is_dead_false_iff _).mp
                (Bool.not_eq_true _ ▸ Bool.of_not_eq_true halive.2) h0
        have htie' : ∀ s0 s1, pot1.1.getLast? = some s0 →
            pot1.2.getLast? = some s1 → s0.face = s1.face := by
          intro s0 s1 hs0 hs1
          rw [hs0] at he0
          rw [hs1] at he1
          cases he0
          cases he1
          exact hfeq
        have hvg2 : validGame { g1 with rng := (Rng.flip g1.rng).2 } := hg1v
        rcases ih { g1 with rng := (Rng.flip g1.rng).2 } pot1 hvg2 hp1v hp2v
            hne1' hne2' htie' with ⟨r, hr⟩ | ⟨hr, hfl⟩
        · obtain ⟨g3, evs3⟩ := r
          rw [hr]
          exact Or.inl ⟨_, rfl⟩
        · rw [hr]
          refine Or.inr ⟨rfl, ?_⟩
          have htot2 : totalCards { g1 with rng := (Rng.flip g1.rng).2 } =
              totalCards g1 := rfl
          simp only [totalCards] at *
          omega
      · rw [if_neg halive]
        by_cases hdead0 : g1.players.1.is_dead = true
        · rw [if_pos hdead0]
          exact Or.inl ⟨_, rfl⟩
        · rw [if_neg hdead0]
          exact Or.inl ⟨_, rfl⟩

/-! ### Lemmas about `Game.step` -/

theorem postCheck_eq (g : Game) (evs : List Event) :
    postCheck g evs = (g, some (evs ++
      ((if g.players.1.is_dead then [Event.GameOver 1] else []) ++
       (if g.players.2.is_dead then [Event.GameOver 0] else [])))) := by
  unfold postCheck
  by_cases h1 : g.players.1.is_dead <;> by_cases h2 : g.players.2.is_dead <;>
    simp [h1, h2]

/-- `step` on a finished game (some player dead): "no events", no mutation. -/
theorem step_dead (fuel : Nat) (g : Game)
    (h : g.players.1.is_dead = true ∨ g.players.2.is_dead = true) :
    Game.step fuel g = .ok (g, none) := by
  rw [Game.step, if_pos h]

/-- Unfolding lemma for `step` on a live game whose two draws are known. -/
theorem step_eq (fuel : Nat) (g : Game) (a b : Card) (p0 p1 : Player)
    (hd0 : g.players.1.is_dead = false) (hd1 : g.players.2.is_dead = false)
    (h0 : g.players.1.draw = some (a, p0))
    (h1 : g.players.2.draw = some (b, p1)) :
    Game.step fuel g =
      if a.face ≠ b.face then
        match compare a.face.measure_strength b.face.measure_strength with
        | .lt => .ok (postCheck
            (awardPot (Game.mk (p0, p1) ⟨g.stats.turn_number + 1⟩
              (Rng.flip g.rng).2) 1
              (if (Rng.flip g.rng).1 then [a, b] else [b, a]))
            [Event.ShortBattle 1 b a
              (if (Rng.flip g.rng).1 then [a, b] else [b, a])])
        | .gt => .ok (postCheck
            (awardPot (Game.mk (p0, p1) ⟨g.stats.turn_number + 1⟩
              (Rng.flip g.rng).2) 0
              (if (Rng.flip g.rng).1 then [a, b] else [b, a]))
            [Event.ShortBattle 0 a b
              (if (Rng.flip g.rng).1 then [a, b] else [b, a])])
        | .eq => .error .strengthTieDifferentFaces
      else
        match resolve_war fuel
            (Game.mk (p0, p1) ⟨g.stats.turn_number + 1⟩ g.rng) ([a], [b]) with
        | .error e => .error e
        | .ok (gw, warEvs) => .ok (postCheck gw warEvs) := by
  rw [Game.step, if_neg (by simp [hd0, hd1])]
  simp only [h0, h1]

theorem filter_core_append_dead (core rest : List Event)
    (hc : ∀ e ∈ core, isGameOver e = false)
    (hr : ∀ e ∈ rest, isGameOver e = true) :
    (core ++ rest).filter isGameOver = rest := by
  rw [List.filter_append, List.filter_eq_self.mpr hr]
  rw [show core.filter isGameOver = [] from ?_, List.nil_append]
  rw [List.filter_eq_nil_iff]
  intro e he
  simp [hc e he]

theorem deadEvents_gameOvers (g : Game) :
    ∀ e ∈ ((if g.players.1.is_dead then [Event.GameOver 1] else []) ++
           (if g.players.2.is_dead then [Event.GameOver 0] else [])),
      isGameOver e = true := by
  intro e he
  by_cases h1 : g.players.1.is_dead <;> by_cases h2 : g.players.2.is_dead <;>
    simp [h1, h2] at he <;>
    first
    | (rcases he with he | he <;> simp [he, isGameOver])
    | simp [he, isGameOver]

theorem validPile_singleton (c : Card) (hc : c.face.isStandard = true) :
    validPile [c] := by
  intro x hx
  simp at hx
  rw [hx]
  exact hc

theorem validPile_pair (a b : Card) (ha : a.face.isStandard = true)
    (hb : b.face.isStandard = true) (coin : Bool) :
    validPile (if coin then [a, b] else [b, a]) := by
  intro x hx
  split at hx <;> simp at hx <;> rcases hx with hx | hx <;> rw [hx] <;>
    assumption

/-- Accounting for a `step` that produced events: the 52-card total is
conserved, the `GameOver` events in the output are exactly the death-check
events for the resulting state, and validity is preserved. -/
theorem step_some_spec (fuel : Nat) (g g' : Game) (evs : List Event)
    (h : Game.step fuel g = .ok (g', some evs)) :
    totalCards g' = totalCards g ∧
    evs.filter isGameOver =
      (if g'.players.1.is_dead then [Event.GameOver 1] else []) ++
      (if g'.players.2.is_dead then [Event.GameOver 0] else []) ∧
    (validGame g → validGame g') := by
  by_cases hdead : g.players.1.is_dead = true ∨ g.players.2.is_dead = true
  · rw [step_dead fuel g hdead] at h
    simp at h
  · push_neg at hdead
    simp only [Bool.not_eq_true] at hdead
    obtain ⟨hd0, hd1⟩ := hdead
    obtain ⟨a, p0, h0⟩ :=
      draw_isSome_of_count _ ((is_dead_false_iff _).mp hd0)
    obtain ⟨b, p1, h1⟩ :=
      draw_isSome_of_count _ ((is_dead_false_iff _).mp hd1)
    have hca := draw_some_count _ _ _ h0
    have hcb := draw_some_count _ _ _ h1
    rw [step_eq fuel g a b p0 p1 hd0 hd1 h0 h1] at h
    have hpotlen : (if (Rng.flip g.rng).1 then [a, b] else [b, a]).length = 2 := by
      split <;> rfl
    by_cases hface : a.face = b.face
    · -- war branch
      rw [if_neg (by simp [hface])] at h
      cases hrw : resolve_war fuel
          (Game.mk (p0, p1) ⟨g.stats.turn_number + 1⟩ g.rng) ([a], [b]) with
      | error e => rw [hrw] at h; simp at h
      | ok res =>
        obtain ⟨gw, wevs⟩ := res
        simp only [hrw] at h
        rw [postCheck_eq] at h
        simp only [Except.ok.injEq, Prod.mk.injEq, Option.some.injEq] at h
        obtain ⟨hg', hevs⟩ := h
        subst hg'
        obtain ⟨hwt, hwgo, -, hwv⟩ := resolve_war_spec _ _ _ _ _ hrw
        refine ⟨?_, ?_, ?_⟩
        · rw [hwt]
          simp only [totalCards, Player.count_cards] at *
          simp at hwt ⊢
          omega
        · rw [← hevs]
          exact filter_core_append_dead _ _ hwgo (deadEvents_gameOvers _)
        · intro hv
          obtain ⟨hv0, hva⟩ := draw_valid _ _ _ h0 hv.1
          obtain ⟨hv1, hvb⟩ := draw_valid _ _ _ h1 hv.2
          exact hwv ⟨hv0, hv1⟩ (validPile_singleton a hva)
            (validPile_singleton b hvb)
    · -- short battle branch
      rw [if_pos (by simp [hface])] at h
      have hbody : ∀ (w : Nat) (sb : Event), isGameOver sb = false →
          (Except.ok (ε := Err) (postCheck
            (awardPot (Game.mk (p0, p1) ⟨g.stats.turn_number + 1⟩
              (Rng.flip g.rng).2) w
              (if (Rng.flip g.rng).1 then [a, b] else [b, a])) [sb])) =
            .ok (g', some evs) →
          totalCards g' = totalCards g ∧
          evs.filter isGameOver =
            (if g'.players.1.is_dead then [Event.GameOver 1] else []) ++
            (if g'.players.2.is_dead then [Event.GameOver 0] else []) ∧
          (validGame g → validGame g') := by
        intro w sb hsb hh
        rw [postCheck_eq] at hh
        simp only [Except.ok.injEq, Prod.mk.injEq, Option.some.injEq] at hh
        obtain ⟨hg', hevs⟩ := hh
        subst hg'
        refine ⟨?_, ?_, ?_⟩
        · rw [awardPot_total, hpotlen]
          simp only [totalCards, Player.count_cards] at *
          omega
        · rw [← hevs]
          refine filter_core_append_dead _ _ ?_ (deadEvents_gameOvers _)
          intro e he
          simp at he
          rw [he]
          exact hsb
        · intro hv
          obtain ⟨hv0, hva⟩ := draw_valid _ _ _ h0 hv.1
          obtain ⟨hv1, hvb⟩ := draw_valid _ _ _ h1 hv.2
          exact awardPot_valid _ _ _ ⟨hv0, hv1⟩ (validPile_pair a b hva hvb _)
      cases hcmp : compare a.face.measure_strength b.face.measure_strength with
      | lt =>
        rw [hcmp] at h
        exact hbody 1 (Event.ShortBattle 1 b a
          (if (Rng.flip g.rng).1 then [a, b] else [b, a]))
          (by simp [isGameOver]) h
      | gt =>
        rw [hcmp] at h
        exact hbody 0 (Event.ShortBattle 0 a b
          (if (Rng.flip g.rng).1 then [a, b] else [b, a]))
          (by simp [isGameOver]) h
      | eq =>
        rw [hcmp] at h
        simp at h

/-- On a valid game, `step` never hits a panic branch: it either succeeds or
(with too little fuel) reports fuel exhaustion of the modelled recursion. -/
theorem step_no_panic (fuel : Nat) (g : Game) (hv : validGame g) :
    (∃ r, Game.step fuel g = .ok r) ∨
      Game.step fuel g = .error .outOfFuel := by
  by_cases hdead : g.players.1.is_dead = true ∨ g.players.2.is_dead = true
  · exact Or.inl ⟨_, step_dead fuel g hdead⟩
  · push_neg at hdead
    simp only [Bool.not_eq_true] at hdead
    obtain ⟨hd0, hd1⟩ := hdead
    obtain ⟨a, p0, h0⟩ :=
      draw_isSome_of_count _ ((is_dead_false_iff _).mp hd0)
    obtain ⟨b, p1, h1⟩ :=
      draw_isSome_of_count _ ((is_dead_false_iff _).mp hd1)
    obtain ⟨hv0, hva⟩ := draw_valid _ _ _ h0 hv.1
    obtain ⟨hv1, hvb⟩ := draw_valid _ _ _ h1 hv.2
    rw [step_eq fuel g a b p0 p1 hd0 hd1 h0 h1]
    by_cases hface : a.face = b.face
    · rw [if_neg (by simp [hface])]
      have htie : ∀ t0 t1, ([a], [b]).1.getLast? = some t0 →
          ([a], [b]).2.getLast? = some t1 → t0.face = t1.face := by
        intro t0 t1 hT0 hT1
        simp at hT0 hT1
        rw [← hT0, ← hT1]
        exact hface
      rcases resolve_war_fuel_spec fuel
          (Game.mk (p0, p1) ⟨g.stats.turn_number + 1⟩ g.rng) ([a], [b])
          ⟨hv0, hv1⟩ (validPile_singleton a hva) (validPile_singleton b hvb)
          (by simp) (by simp) htie with ⟨r, hr⟩ | ⟨hr, -⟩
      · obtain ⟨gw, wevs⟩ := r
        rw [hr]
        exact Or.inl ⟨_, rfl⟩
      · rw [hr]
        exact Or.inr rfl
    · rw [if_pos (by simp [hface])]
      have hstr : a.face.measure_strength ≠ b.face.measure_strength :=
        fun hh => hface (measure_strength_inj _ _ hva hvb hh)
      cases hcmp : compare a.face.measure_strength b.face.measure_strength with
      | lt => exact Or.inl ⟨_, rfl⟩
      | gt => exact Or.inl ⟨_, rfl⟩
      | eq => exact absurd (Nat.compare_eq_eq.mp hcmp) hstr

/-- `step` answers "no events" only on an unchanged game with a dead player. -/
theorem step_none_spec (fuel : Nat) (g g' : Game)
    (h : Game.step fuel g = .ok (g', none)) :
    g' = g ∧ (g.players.1.is_dead = true ∨ g.players.2.is_dead = true) := by
  by_cases hdead : g.players.1.is_dead = true ∨ g.players.2.is_dead = true
  · rw [step_dead fuel g hdead] at h
    simp only [Except.ok.injEq, Prod.mk.injEq] at h
    exact ⟨h.1.symm, hdead⟩
  · exfalso
    push_neg at hdead
    simp only [Bool.not_eq_true] at hdead
    obtain ⟨hd0, hd1⟩ := hdead
    obtain ⟨a, p0, h0⟩ :=
      draw_isSome_of_count _ ((is_dead_false_iff _).mp hd0)
    obtain ⟨b, p1, h1⟩ :=
      draw_isSome_of_count _ ((is_dead_false_iff _).mp hd1)
    rw [step_eq fuel g a b p0 p1 hd0 hd1 h0 h1] at h
    by_cases hface : a.face = b.face
    · rw [if_neg (by simp [hface])] at h
      cases hrw : resolve_war fuel
          (Game.mk (p0, p1) ⟨g.stats.turn_number + 1⟩ g.rng) ([a], [b]) with
      | error e => rw [hrw] at h; simp at h
      | ok res =>
        obtain ⟨gw, wevs⟩ := res
        simp only [hrw, postCheck_eq] at h
        simp at h
    · rw [if_pos (by simp [hface])] at h
      cases hcmp : compare a.face.measure_strength b.face.measure_strength with
      | lt => simp only [hcmp, postCheck_eq] at h; simp at h
      | gt => simp only [hcmp, postCheck_eq] at h; simp at h
      | eq => simp only [hcmp] at h; simp at h

/-! ### The deal and reachable-state invariants -/

theorem dealSplit_mem : ∀ (l : List Card) (c : Card),
    (c ∈ (dealSplit l).1 ∨ c ∈ (dealSplit l).2) → c ∈ l
  | [], c => by simp [dealSplit]
  | [x], c => by simp [dealSplit]
  | x :: y :: rest, c => by
    intro hc
    simp only [dealSplit, List.mem_cons] at hc ⊢
    rcases hc with (hc | hc) | hc
    · exact Or.inl hc
    · rcases dealSplit_mem rest c (Or.inl hc) with h
      exact Or.inr (Or.inr h)
    · rcases hc with hc | hc
      · exact Or.inr (Or.inl hc)
      · exact Or.inr (Or.inr (dealSplit_mem rest c (Or.inr hc)))

theorem dealSplit_length : ∀ (l : List Card),
    (dealSplit l).1.length = (l.length + 1) / 2 ∧
    (dealSplit l).2.length = l.length / 2
  | [] => by simp [dealSplit]
  | [c] => by simp [dealSplit]
  | c0 :: c1 :: rest => by
    have ih := dealSplit_length rest
    simp only [dealSplit, List.length_cons, ih.1, ih.2]
    constructor <;> omega

theorem standard_deck_valid : validPile create_standard_deck := by decide

theorem standard_deck_length : create_standard_deck.length = 52 := by decide

theorem new_total (deck : List Card) (rng : List Bool) :
    totalCards (Game.new deck rng) = deck.length := by
  have h := dealSplit_length deck
  simp only [Game.new, totalCards, Player.count_cards]
  simp [h.1, h.2]
  omega

theorem new_valid (deck : List Card) (rng : List Bool)
    (hd : deck.Perm create_standard_deck) : validGame (Game.new deck rng) := by
  have hmem : ∀ c ∈ deck, c.face.isStandard = true := fun c hc =>
    standard_deck_valid c (hd.mem_iff.mp hc)
  refine ⟨⟨?_, ?_⟩, ⟨?_, ?_⟩⟩ <;> intro c hc
  · exact hmem c (dealSplit_mem deck c (Or.inl hc))
  · simp [Game.new] at hc
  · exact hmem c (dealSplit_mem deck c (Or.inr hc))
  · simp [Game.new] at hc

theorem reachable_valid (g : Game) (h : Reachable g) : validGame g := by
  induction h with
  | new deck rng hd => exact new_valid deck rng hd
  | step g g' fuel evs h hs ih =>
    cases evs with
    | none => rw [(step_none_spec fuel g g' hs).1]; exact ih
    | some evs => exact (step_some_spec fuel g g' evs hs).2.2 ih

theorem reachable_total (g : Game) (h : Reachable g) : totalCards g = 52 := by
  induction h with
  | new deck rng hd =>
    rw [new_total]
    rw [hd.length_eq, standard_deck_length]
  | step g g' fuel evs h hs ih =>
    cases evs with
    | none => rw [(step_none_spec fuel g g' hs).1]; exact ih
    | some evs => rw [(step_some_spec fuel g g' evs hs).1]; exact ih

/-! ### Concrete fixtures used by witnesses -/

def cardK : Card := ⟨Suit.Hearts, Face.King⟩
def card7 : Card := ⟨Suit.Clubs, Face.Number 7⟩
def cardKc : Card := ⟨Suit.Clubs, Face.King⟩
def card2a : Card := ⟨Suit.Hearts, Face.Number 2⟩
def card2b : Card := ⟨Suit.Spades, Face.Number 2⟩

def gameDead : Game := ⟨(⟨[], []⟩, ⟨[cardK], []⟩), ⟨3⟩, []⟩

/-! ### The claims -/

/-- C1: for every game constructed by `Game::new` (any shuffle of the
standard deck, any randomness) and any sequence of successful `step()` calls,
the sum of the two players' card counts (draw pile plus winnings pile of
both) is exactly 52 at every turn boundary. -/
theorem C1_total_cards_always_52 (g : Game) (h : Reachable g) :
    totalCards g = 52 :=
  reachable_total g h

theorem C1_total_cards_always_52_witness :
    totalCards (Game.new create_standard_deck []) = 52 :=
  C1_total_cards_always_52 _
    (Reachable.new create_standard_deck [] (List.Perm.refl _))

/-- C2: `step` returns "no events" (`none`) exactly when some player already
has zero cards at the call, and in that case the whole game state — turn
counter and piles included — is returned unchanged. -/
theorem C2_step_none_iff_dead (fuel : Nat) (g : Game) :
    ((g.players.1.is_dead = true ∨ g.players.2.is_dead = true) →
      Game.step fuel g = .ok (g, none)) ∧
    (∀ g', Game.step fuel g = .ok (g', none) →
      (g.players.1.is_dead = true ∨ g.players.2.is_dead = true) ∧ g' = g) := by
  constructor
  · exact step_dead fuel g
  · intro g' h
    obtain ⟨he, hd⟩ := step_none_spec fuel g g' h
    exact ⟨hd, he⟩

theorem C2_step_none_iff_dead_witness :
    Game.step 1 gameDead = .ok (gameDead, none) :=
  (C2_step_none_iff_dead 1 gameDead).1 (Or.inl (by decide))

/-- C5: from any reachable game state, `step` never takes a fatal branch:
it cannot return the errors modelling the `panic!` in `resolve_war`
(unequal faces), the `unreachable!` in the different-face `Equal` arm, the
`unreachable!` draw failure in the war loop, or an empty-pot `unwrap` —
the only non-`ok` outcome is exhaustion of the modelled recursion fuel;
moreover, once the liveness pre-check of `step` passes (neither player is
dead), the two top-level draws of the turn both succeed, so the
`(_, None) | (None, _)` fallback arm of `step` is never taken. -/
theorem C5_no_fatal_branch (g : Game) (fuel : Nat) (h : Reachable g) :
    ((∃ r, Game.step fuel g = .ok r) ∨
      Game.step fuel g = .error Err.outOfFuel) ∧
    (g.players.1.is_dead = false → g.players.2.is_dead = false →
      ∃ a p0 b p1, g.players.1.draw = some (a, p0) ∧
        g.players.2.draw = some (b, p1)) := by
  refine ⟨step_no_panic fuel g (reachable_valid g h), ?_⟩
  intro hd0 hd1
  obtain ⟨a, p0, h0⟩ :=
    draw_isSome_of_count _ ((is_dead_false_iff _).mp hd0)
  obtain ⟨b, p1, h1⟩ :=
    draw_isSome_of_count _ ((is_dead_false_iff _).mp hd1)
  exact ⟨a, p0, b, p1, h0, h1⟩

theorem C5_no_fatal_branch_witness :
    ((∃ r, Game.step 60 (Game.new create_standard_deck []) = .ok r) ∨
      Game.step 60 (Game.new create_standard_deck []) =
        .error Err.outOfFuel) ∧
    ((Game.new create_standard_deck []).players.1.is_dead = false →
      (Game.new create_standard_deck []).players.2.is_dead = false →
      ∃ a p0 b p1,
        (Game.new create_standard_deck []).players.1.draw = some (a, p0) ∧
        (Game.new create_standard_deck []).players.2.draw = some (b, p1)) :=
  C5_no_fatal_branch _ 60
    (Reachable.new create_standard_deck [] (List.Perm.refl _))

/-- C9: `Player::draw` returns nothing exactly when both piles are empty;
when the draw pile is empty but the winnings pile is not, the piles are
swapped unshuffled (capture order becomes the new draw order) and the top
(last) card of the swapped-in pile is removed and returned; when the draw
pile is non-empty its top card is removed and returned; and every
successful draw lowers the player's total count by exactly one. -/
theorem C9_draw_spec (p : Player) :
    (p.draw = none ↔ p.draw_pile = [] ∧ p.winnings_pile = []) ∧
    (p.draw_pile = [] → p.winnings_pile ≠ [] →
      ∃ c, p.winnings_pile.getLast? = some c ∧
        p.draw = some (c, ⟨p.winnings_pile.dropLast, []⟩)) ∧
    (p.draw_pile ≠ [] →
      ∃ c, p.draw_pile.getLast? = some c ∧
        p.draw = some (c, ⟨p.draw_pile.dropLast, p.winnings_pile⟩)) ∧
    (∀ c p', p.draw = some (c, p') → p'.count_cards + 1 = p.count_cards) := by
  refine ⟨draw_eq_none_iff p, ?_, ?_, draw_some_count p⟩
  · intro hd hw
    cases hc : p.winnings_pile.getLast? with
    | none => exact absurd (List.getLast?_eq_none_iff.mp hc) hw
    | some c =>
      refine ⟨c, rfl, ?_⟩
      unfold Player.draw
      rw [if_pos ⟨by simp [hd], fun hh => hw (List.length_eq_zero.mp hh)⟩]
      unfold drawPop
      simp only [hd, hc]
  · intro hd
    cases hc : p.draw_pile.getLast? with
    | none => exact absurd (List.getLast?_eq_none_iff.mp hc) hd
    | some c =>
      refine ⟨c, rfl, ?_⟩
      unfold Player.draw
      rw [if_neg (fun hh => hd (List.length_eq_zero.mp hh.1))]
      unfold drawPop
      simp only [hc]

theorem C9_draw_spec_witness :
    ∃ c, ([cardK, card7] : List Card).getLast? = some c ∧
      (Player.mk [] [cardK, card7]).draw =
        some (c, ⟨([cardK, card7] : List Card).dropLast, []⟩) :=
  (C9_draw_spec (Player.mk [] [cardK, card7])).2.1 rfl (by decide)

def gW : Game := ⟨(⟨[card2a], []⟩, ⟨[card2b], []⟩), ⟨1⟩, []⟩
def gWafter : Game := ⟨(⟨[], []⟩, ⟨[], []⟩), ⟨1⟩, []⟩

/-- C3: `resolve_war` terminates on every state reachable in a game (here:
any valid game state, with non-empty face-tied pot stacks): recursion depth
is bounded by the players' remaining cards because each war round draws at
least one card per surviving player, so fuel exceeding the players' total
card count is never exhausted and the call returns. -/
theorem C3_resolve_war_terminates (fuel : Nat) (g : Game)
    (pot : List Card × List Card) (hv : validGame g)
    (hp1 : validPile pot.1) (hp2 : validPile pot.2)
    (hne1 : pot.1 ≠ []) (hne2 : pot.2 ≠ [])
    (htie : ∀ t0 t1, pot.1.getLast? = some t0 → pot.2.getLast? = some t1 →
      t0.face = t1.face)
    (hfuel : totalCards g < fuel) :
    ∃ r, resolve_war fuel g pot = .ok r := by
  rcases resolve_war_fuel_spec fuel g pot hv hp1 hp2 hne1 hne2 htie with
    h | ⟨-, hle⟩
  · exact h
  · omega

theorem C3_resolve_war_terminates_witness :
    ∃ r, resolve_war 3 gW ([cardK], [cardKc]) = .ok r :=
  C3_resolve_war_terminates 3 gW ([cardK], [cardKc]) (by decide) (by decide)
    (by decide) (by decide) (by decide)
    (by
      intro t0 t1 h1 h2
      simp at h1 h2
      rw [← h1, ← h2]
      decide)
    (by decide)

/-- C4: in a war round the draw loop either runs to completion — each player
adds exactly `war_length` of the tied face extra cards to their pot stack,
with no event — or it is cut short: a `WarShortened` event is emitted
exactly when some player's combined pile count is zero strictly before the
expected draws are done, and its `length_of_war_after_shortening` field
equals the number of extra cards each side actually drew. -/
theorem C4_war_draws_and_shortening (f : Face) (g g' : Game)
    (pot pot' : List Card × List Card) (evs : List Event)
    (h : warLoop f.war_length g pot 1 f.war_length = .ok (g', pot', evs)) :
    (evs = [] ∧ pot'.1.length = pot.1.length + f.war_length ∧
      pot'.2.length = pot.2.length + f.war_length) ∨
    (∃ k, k < f.war_length ∧
      (g'.players.1.count_cards = 0 ∨ g'.players.2.count_cards = 0) ∧
      evs = [Event.WarShortened
        (if g'.players.1.count_cards = 0 then 0 else 1) k f.war_length] ∧
      pot'.1.length = pot.1.length + k ∧
      pot'.2.length = pot.2.length + k) := by
  obtain ⟨d, hl1, hl2, -, -, -, -, hca⟩ :=
    warLoop_spec _ _ _ _ _ _ _ _ le_rfl h
  rcases hca with ⟨he, hd⟩ | ⟨hd, hdead, he⟩
  · subst hd
    exact Or.inl ⟨he, hl1, hl2⟩
  · exact Or.inr ⟨d, hd, hdead, by simpa using he, hl1, hl2⟩

theorem C4_war_draws_and_shortening_witness :
    ∃ k, k < Face.King.war_length ∧
      (gWafter.players.1.count_cards = 0 ∨
        gWafter.players.2.count_cards = 0) ∧
      [Event.WarShortened 0 1 14] = [Event.WarShortened
        (if gWafter.players.1.count_cards = 0 then 0 else 1) k
        Face.King.war_length] ∧
      ([cardK, card2a] : List Card).length = ([cardK] : List Card).length + k ∧
      ([cardKc, card2b] : List Card).length =
        ([cardKc] : List Card).length + k := by
  rcases C4_war_draws_and_shortening Face.King gW gWafter
      ([cardK], [cardKc]) ([cardK, card2a], [cardKc, card2b])
      [Event.WarShortened 0 1 14] (by rfl) with ⟨he, -⟩ | h
  · exact absurd he (by decide)
  · exact h

/-- C6: when the final comparison of a war round ties and exactly one player
is out of cards, the other player receives the entire accumulated merged pot
into their winnings pile and the `WarEnd` event names them winner, despite
the tie. -/
theorem C6_war_tie_one_dead (fuel : Nat) (g g1 : Game)
    (pot pot1 : List Card × List Card) (loopEvs : List Event)
    (t0 t1 e0 e1 : Card)
    (ht0 : pot.1.getLast? = some t0) (ht1 : pot.2.getLast? = some t1)
    (hface : t0.face = t1.face)
    (hloop : warLoop t0.face.war_length g pot 1 t0.face.war_length =
      .ok (g1, pot1, loopEvs))
    (he0 : pot1.1.getLast? = some e0) (he1 : pot1.2.getLast? = some e1)
    (heq : e0.face.measure_strength = e1.face.measure_strength)
    (hone : g1.players.1.is_dead ≠ g1.players.2.is_dead) :
    ∃ g2, resolve_war (fuel + 1) g pot = .ok (g2,
        Event.WarStart (t0, t1) t0.face.war_length :: loopEvs ++
          [Event.WarEnd (if g1.players.1.is_dead then 1 else 0) (e0, e1)]) ∧
      (if g1.players.1.is_dead then
        g2.players.2.winnings_pile = g1.players.2.winnings_pile ++
          merged_pot (Rng.flip g1.rng).1 pot1 ∧ g2.players.1 = g1.players.1
      else
        g2.players.1.winnings_pile = g1.players.1.winnings_pile ++
          merged_pot (Rng.flip g1.rng).1 pot1 ∧
        g2.players.2 = g1.players.2) := by
  rw [resolve_war_eq fuel g pot t0 t1 ht0 ht1 hface g1 pot1 loopEvs hloop
    e0 e1 he0 he1]
  have hcmp : compare e0.face.measure_strength e1.face.measure_strength =
      .eq := Nat.compare_eq_eq.mpr heq
  simp only [hcmp]
  cases hdead0 : g1.players.1.is_dead with
  | true =>
    rw [if_neg (by simp), if_pos rfl]
    refine ⟨_, rfl, ?_⟩
    rw [if_pos rfl]
    constructor <;> simp [awardPot]
  | false =>
    have hdead1 : g1.players.2.is_dead = true := by
      cases hh : g1.players.2.is_dead
      · exact absurd (hdead0.trans hh.symm) hone
      · rfl
    rw [if_neg (by simp [hdead1]), if_neg (by simp)]
    refine ⟨_, rfl, ?_⟩
    rw [if_neg (by simp)]
    constructor <;> simp [awardPot]

def gC6 : Game := ⟨(⟨[], []⟩, ⟨[card7], []⟩), ⟨2⟩, []⟩

theorem C6_war_tie_one_dead_witness :
    ∃ g2, resolve_war 1 gC6 ([cardK], [cardKc]) = .ok (g2,
        Event.WarStart (cardK, cardKc) cardK.face.war_length ::
          [Event.WarShortened 0 0 14] ++
          [Event.WarEnd (if gC6.players.1.is_dead then 1 else 0)
            (cardK, cardKc)]) ∧
      (if gC6.players.1.is_dead then
        g2.players.2.winnings_pile = gC6.players.2.winnings_pile ++
          merged_pot (Rng.flip gC6.rng).1 ([cardK], [cardKc]) ∧
        g2.players.1 = gC6.players.1
      else
        g2.players.1.winnings_pile = gC6.players.1.winnings_pile ++
          merged_pot (Rng.flip gC6.rng).1 ([cardK], [cardKc]) ∧
        g2.players.2 = gC6.players.2) :=
  C6_war_tie_one_dead 0 gC6 gC6 ([cardK], [cardKc]) ([cardK], [cardKc])
    [Event.WarShortened 0 0 14] cardK cardKc cardK cardKc rfl rfl rfl
    (by rfl) rfl rfl rfl (by decide)

/-- C10: if the tied war comparison is reached while both players have zero
cards, the code deterministically awards the whole merged pot to player 1
(the player-0-dead check runs first), emits `WarEnd` with winner id 1, and
the subsequent death check of `step` (`postCheck`) then emits exactly one
`GameOver` naming player 1. -/
theorem C10_war_tie_both_dead (fuel : Nat) (g g1 : Game)
    (pot pot1 : List Card × List Card) (loopEvs : List Event)
    (t0 t1 e0 e1 : Card)
    (ht0 : pot.1.getLast? = some t0) (ht1 : pot.2.getLast? = some t1)
    (hface : t0.face = t1.face)
    (hloop : warLoop t0.face.war_length g pot 1 t0.face.war_length =
      .ok (g1, pot1, loopEvs))
    (he0 : pot1.1.getLast? = some e0) (he1 : pot1.2.getLast? = some e1)
    (heq : e0.face.measure_strength = e1.face.measure_strength)
    (hz0 : g1.players.1.count_cards = 0)
    (hz1 : g1.players.2.count_cards = 0) :
    ∃ g2, resolve_war (fuel + 1) g pot = .ok (g2,
        Event.WarStart (t0, t1) t0.face.war_length :: loopEvs ++
          [Event.WarEnd 1 (e0, e1)]) ∧
      g2.players.2.winnings_pile = g1.players.2.winnings_pile ++
        merged_pot (Rng.flip g1.rng).1 pot1 ∧
      g2.players.1 = g1.players.1 ∧
      (∀ evs0, postCheck g2 evs0 = (g2, some (evs0 ++ [Event.GameOver 1]))) := by
  rw [resolve_war_eq fuel g pot t0 t1 ht0 ht1 hface g1 pot1 loopEvs hloop
    e0 e1 he0 he1]
  have hcmp : compare e0.face.measure_strength e1.face.measure_strength =
      .eq := Nat.compare_eq_eq.mpr heq
  have hdead0 : g1.players.1.is_dead = true := (is_dead_true_iff _).mpr hz0
  simp only [hcmp]
  rw [if_neg (by simp [hdead0]), if_pos hdead0]
  refine ⟨_, rfl, by simp [awardPot], by simp [awardPot], ?_⟩
  intro evs0
  rw [postCheck_eq]
  have hda : (awardPot { g1 with rng := (Rng.flip g1.rng).2 } 1
      (merged_pot (Rng.flip g1.rng).1 pot1)).players.1.is_dead = true := by
    rw [is_dead_true_iff]
    simpa [awardPot] using hz0
  have hpot1ne : pot1.1 ≠ [] := by
    intro hh
    rw [hh] at he0
    simp at he0
  have hdb : (awardPot { g1 with rng := (Rng.flip g1.rng).2 } 1
      (merged_pot (Rng.flip g1.rng).1 pot1)).players.2.is_dead = false := by
    rw [is_dead_false_iff]
    have hml := merged_pot_length (Rng.flip g1.rng).1 pot1
    have hlp := List.length_pos.mpr hpot1ne
    simp only [awardPot]
    rw [if_neg (by decide)]
    simp only [Player.count_cards, List.length_append]
    omega
  rw [hda, hdb]
  simp

def gC10 : Game := ⟨(⟨[], []⟩, ⟨[], []⟩), ⟨2⟩, []⟩

theorem C10_war_tie_both_dead_witness :
    ∃ g2, resolve_war 1 gC10 ([cardK], [cardKc]) = .ok (g2,
        Event.WarStart (cardK, cardKc) cardK.face.war_length ::
          [Event.WarShortened 0 0 14] ++ [Event.WarEnd 1 (cardK, cardKc)]) ∧
      g2.players.2.winnings_pile = gC10.players.2.winnings_pile ++
        merged_pot (Rng.flip gC10.rng).1 ([cardK], [cardKc]) ∧
      g2.players.1 = gC10.players.1 ∧
      (∀ evs0, postCheck g2 evs0 = (g2, some (evs0 ++ [Event.GameOver 1]))) :=
  C10_war_tie_both_dead 0 gC10 gC10 ([cardK], [cardKc]) ([cardK], [cardKc])
    [Event.WarShortened 0 0 14] cardK cardKc cardK cardKc rfl rfl rfl
    (by rfl) rfl rfl rfl rfl rfl

/-- C8: a turn whose two drawn cards have different faces transfers exactly
the two drawn cards (as a possibly reordered two-card pot) into the winning
player's winnings pile, emits a `ShortBattle` event heading the turn's event
list whose pot is set-equal to the two drawn cards, and the winner is the
owner of the card with the higher battle strength; any further events of
the turn are only `GameOver` death checks. -/
theorem C8_short_battle (fuel : Nat) (g g' : Game) (evs : List Event)
    (a b : Card) (p0 p1 : Player)
    (hd0 : g.players.1.is_dead = false) (hd1 : g.players.2.is_dead = false)
    (h0 : g.players.1.draw = some (a, p0))
    (h1 : g.players.2.draw = some (b, p1))
    (hface : a.face ≠ b.face)
    (hstep : Game.step fuel g = .ok (g', some evs)) :
    ∃ (w : Nat) (wc lc : Card) (pot : List Card) (rest : List Event),
      evs = Event.ShortBattle w wc lc pot :: rest ∧
      pot.Perm [a, b] ∧
      (∀ e ∈ rest, isGameOver e = true) ∧
      ((b.face.measure_strength < a.face.measure_strength ∧ w = 0 ∧
        wc = a ∧ lc = b ∧
        g'.players.1.winnings_pile = p0.winnings_pile ++ pot ∧
        g'.players.1.draw_pile = p0.draw_pile ∧ g'.players.2 = p1) ∨
       (a.face.measure_strength < b.face.measure_strength ∧ w = 1 ∧
        wc = b ∧ lc = a ∧
        g'.players.2.winnings_pile = p1.winnings_pile ++ pot ∧
        g'.players.2.draw_pile = p1.draw_pile ∧ g'.players.1 = p0)) := by
  rw [step_eq fuel g a b p0 p1 hd0 hd1 h0 h1,
    if_pos (by simp [hface])] at hstep
  have hperm : (if (Rng.flip g.rng).1 then [a, b] else [b, a]).Perm [a, b] := by
    split
    · exact List.Perm.refl _
    · exact List.Perm.swap a b []
  cases hcmp : compare a.face.measure_strength b.face.measure_strength with
  | lt =>
    simp only [hcmp, postCheck_eq, Except.ok.injEq, Prod.mk.injEq,
      Option.some.injEq] at hstep
    obtain ⟨hg', hevs⟩ := hstep
    subst hg'
    exact ⟨1, b, a, _, _, hevs.symm, hperm, deadEvents_gameOvers _,
      Or.inr ⟨Nat.compare_eq_lt.mp hcmp, rfl, rfl, rfl, by simp [awardPot],
        by simp [awardPot], by simp [awardPot]⟩⟩
  | gt =>
    simp only [hcmp, postCheck_eq, Except.ok.injEq, Prod.mk.injEq,
      Option.some.injEq] at hstep
    obtain ⟨hg', hevs⟩ := hstep
    subst hg'
    exact ⟨0, a, b, _, _, hevs.symm, hperm, deadEvents_gameOvers _,
      Or.inl ⟨Nat.compare_eq_gt.mp hcmp, rfl, rfl, rfl, by simp [awardPot],
        by simp [awardPot], by simp [awardPot]⟩⟩
  | eq =>
    rw [hcmp] at hstep
    simp at hstep

def gSB : Game := ⟨(⟨[cardK], []⟩, ⟨[card7], []⟩), ⟨0⟩, []⟩
def gSBres : Game := ⟨(⟨[], [cardK, card7]⟩, ⟨[], []⟩), ⟨1⟩, []⟩

theorem C8_short_battle_witness :
    ∃ (w : Nat) (wc lc : Card) (pot : List Card) (rest : List Event),
      ([Event.ShortBattle 0 cardK card7 [cardK, card7], Event.GameOver 0] :
        List Event) = Event.ShortBattle w wc lc pot :: rest ∧
      pot.Perm [cardK, card7] ∧
      (∀ e ∈ rest, isGameOver e = true) ∧
      ((card7.face.measure_strength < cardK.face.measure_strength ∧ w = 0 ∧
        wc = cardK ∧ lc = card7 ∧
        gSBres.players.1.winnings_pile =
          (Player.mk ([] : List Card) []).winnings_pile ++ pot ∧
        gSBres.players.1.draw_pile =
          (Player.mk ([] : List Card) []).draw_pile ∧
        gSBres.players.2 = Player.mk [] []) ∨
       (cardK.face.measure_strength < card7.face.measure_strength ∧ w = 1 ∧
        wc = card7 ∧ lc = cardK ∧
        gSBres.players.2.winnings_pile =
          (Player.mk ([] : List Card) []).winnings_pile ++ pot ∧
        gSBres.players.2.draw_pile =
          (Player.mk ([] : List Card) []).draw_pile ∧
        gSBres.players.1 = Player.mk [] [])) :=
  C8_short_battle 1 gSB gSBres
    [Event.ShortBattle 0 cardK card7 [cardK, card7], Event.GameOver 0]
    cardK card7 (Player.mk [] []) (Player.mk [] []) rfl rfl rfl rfl
    (by decide) (by rfl)

/-- Driver-loop invariant: a finished run from a live 52-card state produces
exactly one `GameOver`, and the named winner holds all 52 cards at the end. -/
theorem runGame_spec : ∀ (steps fuel : Nat) (g g' : Game) (evs : List Event),
    totalCards g = 52 →
    g.players.1.is_dead = false → g.players.2.is_dead = false →
    runGame steps fuel g = .ok (g', evs, true) →
    ∃ w, evs.filter isGameOver = [Event.GameOver w] ∧
      (if w = 0 then g'.players.1 else g'.players.2).count_cards = 52 := by
  intro steps
  induction steps with
  | zero =>
    intro fuel g g' evs ht hd0 hd1 h
    simp [runGame] at h
  | succ n ih =>
    intro fuel g g' evs ht hd0 hd1 h
    rw [runGame] at h
    cases hs : Game.step fuel g with
    | error e => rw [hs] at h; simp at h
    | ok res =>
      obtain ⟨g1, oevs⟩ := res
      cases oevs with
      | none =>
        obtain ⟨-, hdead⟩ := step_none_spec fuel g g1 hs
        rcases hdead with hh | hh
        · rw [hd0] at hh; exact absurd hh (by simp)
        · rw [hd1] at hh; exact absurd hh (by simp)
      | some evs1 =>
        simp only [hs] at h
        obtain ⟨ht1, hgo, -⟩ := step_some_spec fuel g g1 evs1 hs
        by_cases hdead :
            g1.players.1.is_dead = true ∨ g1.players.2.is_dead = true
        · have hone : ¬(g1.players.1.is_dead = true ∧
              g1.players.2.is_dead = true) := by
            rintro ⟨ha, hb⟩
            rw [is_dead_true_iff] at ha hb
            have h52 : totalCards g1 = 52 := by rw [ht1, ht]
            simp only [totalCards] at h52
            omega
          cases n with
          | zero => simp [runGame] at h
          | succ m =>
            rw [show runGame (m + 1) fuel g1 = .ok (g1, [], true) from by
              rw [runGame, step_dead fuel g1 hdead]] at h
            simp only [Except.ok.injEq, Prod.mk.injEq,
              List.append_nil] at h
            obtain ⟨hg', hevs, -⟩ := h
            subst hg'
            have h52 : totalCards g1 = 52 := by rw [ht1, ht]
            simp only [totalCards] at h52
            by_cases hh : g1.players.1.is_dead = true
            · have hh2 : g1.players.2.is_dead = false := by
                cases hx : g1.players.2.is_dead
                · rfl
                · exact absurd ⟨hh, hx⟩ hone
              refine ⟨1, ?_, ?_⟩
              · rw [← hevs, hgo, if_pos hh, if_neg (by simp [hh2])]
                simp
              · simp only [if_neg (by decide : ¬ (1 : Nat) = 0)]
                rw [is_dead_true_iff] at hh
                omega
            · have hh1 : g1.players.2.is_dead = true := by
                rcases hdead with hx | hx
                · exact absurd hx hh
                · exact hx
              refine ⟨0, ?_, ?_⟩
              · rw [← hevs, hgo, if_neg (by simp [hh]), if_pos hh1]
                simp
              · show g1.players.1.count_cards = 52
                rw [is_dead_true_iff] at hh1
                omega
        · push_neg at hdead
          simp only [Bool.not_eq_true] at hdead
          cases hrun2 : runGame n fuel g1 with
          | error e => rw [hrun2] at h; simp at h
          | ok res2 =>
            obtain ⟨g'', evs', fin⟩ := res2
            simp only [hrun2, Except.ok.injEq, Prod.mk.injEq] at h
            obtain ⟨hg', hevs, hfin⟩ := h
            subst hg'
            obtain ⟨w, hw, hwc⟩ := ih fuel g1 g'' evs'
              (by rw [ht1, ht]) hdead.1 hdead.2 (by rw [hrun2, hfin])
            refine ⟨w, ?_, hwc⟩
            rw [← hevs, List.filter_append, hgo, if_neg (by simp [hdead.1]),
              if_neg (by simp [hdead.2])]
            simp [hw]

/-- C7: starting from `Game::new` (any shuffle, any randomness) and calling
`step()` until it returns "no events", the concatenated event stream
contains exactly one `GameOver` event, and the player it names as winner
holds all 52 cards at that point. -/
theorem C7_exactly_one_gameover (deck : List Card) (rng : List Bool)
    (steps fuel : Nat) (g' : Game) (evs : List Event)
    (hdeck : deck.Perm create_standard_deck)
    (hrun : runGame steps fuel (Game.new deck rng) = .ok (g', evs, true)) :
    ∃ w, evs.filter isGameOver = [Event.GameOver w] ∧
      (if w = 0 then g'.players.1 else g'.players.2).count_cards = 52 := by
  have hlen : deck.length = 52 := by
    rw [hdeck.length_eq, standard_deck_length]
  have ht : totalCards (Game.new deck rng) = 52 := by rw [new_total, hlen]
  have hc := dealSplit_length deck
  rw [hlen] at hc
  have hd0 : (Game.new deck rng).players.1.is_dead = false := by
    rw [is_dead_false_iff]
    simp [Game.new, Player.count_cards, hc.1]
  have hd1 : (Game.new deck rng).players.2.is_dead = false := by
    rw [is_dead_false_iff]
    simp [Game.new, Player.count_cards, hc.2]
  exact runGame_spec steps fuel _ g' evs ht hd0 hd1 hrun

/-- A deck stacked so player 0 receives every high card: the game ends
after 18 turns, making a cheap fully-evaluated end-to-end run. -/
def stackedDeck : List Card :=
  ([Suit.Clubs, Suit.Diamonds, Suit.Hearts, Suit.Spades].flatMap fun s =>
    [Face.Ace, Face.Number 2, Face.King, Face.Number 3, Face.Queen,
     Face.Number 4, Face.Jack, Face.Number 5, Face.Number 10, Face.Number 6,
     Face.Number 9, Face.Number 7].map fun f => Card.mk s f) ++
  [Card.mk Suit.Clubs (Face.Number 8), Card.mk Suit.Hearts (Face.Number 8),
   Card.mk Suit.Diamonds (Face.Number 8), Card.mk Suit.Spades (Face.Number 8)]

def demoRes : Game × List Event × Bool :=
  match runGame 20 60 (Game.new stackedDeck []) with
  | .ok r => r
  | .error _ => (Game.new [] [], [], false)

theorem C7_exactly_one_gameover_witness :
    ∃ w, demoRes.2.1.filter isGameOver = [Event.GameOver w] ∧
      (if w = 0 then demoRes.1.players.1
        else demoRes.1.players.2).count_cards = 52 :=
  C7_exactly_one_gameover stackedDeck [] 20 60 demoRes.1 demoRes.2.1
    (by decide) (by rfl)
